import Mathlib

/-!
Verification of the clawignore path-selection engine and mount-plan compiler.

The definitions below are a shallow embedding of the TypeScript sources:
`src/browser.ts` (sensitivity classifier, file-tree builder, selection
browser), and `src/docker-generator.ts` (mount-plan compiler, ignore-list
writer/reader).  Filesystem reads (`readdir`, `stat`) are modelled by
explicit data (an `FSEntry` tree, a `statIsDir` oracle); everything else is
a direct translation.  JavaScript strings are modelled as Lean `String`s,
with character-list implementations of the string primitives used by the
code (`split`, `trim`, `startsWith`, `endsWith`, `includes`, `toLowerCase`),
and `localeCompare` is modelled as lexicographic order on strings.
-/

namespace Clawignore

/-- JavaScript `s.split(c)` for a one-character separator: splits at every
occurrence of `c`, keeping empty segments (`"".split(c) = [""]`). -/
def splitChar (c : Char) : List Char → List (List Char)
  | [] => [[]]
  | x :: xs =>
    match splitChar c xs with
    | [] => [[]]
    | y :: ys => if x = c then [] :: y :: ys else (x :: y) :: ys

/-- JavaScript `String.prototype.toLowerCase`, on the character list. -/
def strToLower (s : String) : String := String.mk (s.data.map Char.toLower)

/-- JavaScript `s.startsWith(p)`. -/
def strStarts (s p : String) : Bool := p.data.isPrefixOf s.data

/-- JavaScript `s.endsWith(p)`. -/
def strEnds (s p : String) : Bool := p.data.isSuffixOf s.data

/-- Contiguous-substring search on character lists. -/
def listHasSub (needle : List Char) : List Char → Bool
  | [] => needle.isEmpty
  | x :: xs => needle.isPrefixOf (x :: xs) || listHasSub needle xs

/-- JavaScript `s.includes(sub)`. -/
def strHas (s sub : String) : Bool := listHasSub sub.data s.data

/-- JavaScript `s.trim()`: strip whitespace from both ends. -/
def strTrim (s : String) : String :=
  String.mk (((s.data.dropWhile Char.isWhitespace).reverse.dropWhile
    Char.isWhitespace).reverse)

/-- JavaScript `s.split(c)` lifted to `String`. -/
def strSplit (s : String) (c : Char) : List String :=
  (splitChar c s.data).map String.mk

/-- JavaScript `parts.join(sep)`. -/
def joinWith (sep : String) : List String → String
  | [] => ""
  | [x] => x
  | x :: y :: ys => x ++ sep ++ joinWith sep (y :: ys)

/-- Version of `joinWith` on the underlying character lists. -/
def charJoin (sep : List Char) : List (List Char) → List Char
  | [] => []
  | [x] => x
  | x :: y :: ys => x ++ sep ++ charJoin sep (y :: ys)

/-- Node `path.basename` for POSIX paths: the last non-empty `/`-separated
component (`basename "/" = "/"`, `basename "" = ""`). -/
def basename (p : String) : String :=
  match ((strSplit p '/').filter (fun x => !(x == ""))).getLast? with
  | some s => s
  | none => if strStarts p "/" then "/" else ""

/-! ### Sensitivity classifier (`src/browser.ts`) -/

/-- Exact-name denylist `SENSITIVE_PATTERNS` from `browser.ts`. -/
def SENSITIVE_PATTERNS : List String :=
  [".env", ".env.local", ".env.development", ".env.production",
   ".env.staging", ".ssh", ".aws", ".gcp", ".azure", ".kube", ".docker",
   ".npmrc", ".pypirc", ".netrc", ".gitconfig", ".bash_history",
   ".zsh_history", "secrets", "private", "credentials", ".credentials",
   "passwords", ".passwords"]

/-- Extension denylist `SENSITIVE_EXTENSIONS` from `browser.ts`. -/
def SENSITIVE_EXTENSIONS : List String :=
  [".pem", ".key", ".p12", ".pfx", ".jks", ".keystore"]

/-- Keyword denylist `SENSITIVE_KEYWORDS` from `browser.ts`. -/
def SENSITIVE_KEYWORDS : List String :=
  ["secret", "credential", "password", "private_key", "privatekey",
   "api_key", "apikey", "token"]

/-- Embedding of `isSensitivePath(name, path)` from `browser.ts`: the pure sensitivity
classifier (the lowercased path is computed by the source but never used). -/
def isSensitivePath (name path : String) : Bool :=
  let lowerName := strToLower name
  let _lowerPath := strToLower path
  if SENSITIVE_PATTERNS.contains lowerName then true
  else if strStarts lowerName ".env." || lowerName == ".env" then true
  else if SENSITIVE_EXTENSIONS.any (fun ext => strEnds lowerName ext) then true
  else if SENSITIVE_KEYWORDS.any (fun kw => strHas lowerName kw) then true
  else if strStarts lowerName "id_" && !(strHas lowerName ".pub") then true
  else if strStarts lowerName "serviceaccountkey" &&
          strEnds lowerName ".json" then true
  else false

/-- Embedding of `getSensitiveReason(name)` from `browser.ts`. -/
def getSensitiveReason (name : String) : String :=
  let lowerName := strToLower name
  if strStarts lowerName ".env" then "Environment variables may contain secrets"
  else if lowerName == ".ssh" || strStarts lowerName "id_" then "SSH keys and credentials"
  else if lowerName == ".aws" then "AWS credentials"
  else if lowerName == ".gcp" then "Google Cloud credentials"
  else if lowerName == ".azure" then "Azure credentials"
  else if lowerName == ".kube" then "Kubernetes credentials"
  else if lowerName == ".docker" then "Docker credentials"
  else if lowerName == ".npmrc" then "NPM authentication tokens"
  else if lowerName == ".pypirc" then "PyPI authentication"
  else if lowerName == ".netrc" then "Network credentials"
  else if lowerName == ".gitconfig" then "Git configuration"
  else if strHas lowerName "history" then "Command history may contain secrets"
  else if strHas lowerName "secret" then "Contains \"secret\" in name"
  else if strHas lowerName "credential" then "Contains \"credential\" in name"
  else if strHas lowerName "password" then "Contains \"password\" in name"
  else if strHas lowerName "private" then "Private data"
  else if strHas lowerName "token" then "May contain authentication tokens"
  else if strHas lowerName "api_key" || strHas lowerName "apikey" then "May contain API keys"
  else if strEnds lowerName ".pem" || strEnds lowerName ".key" then "Private key file"
  else if strEnds lowerName ".p12" || strEnds lowerName ".pfx" then "Certificate with private key"
  else if strEnds lowerName ".jks" || strEnds lowerName ".keystore" then "Java keystore"
  else if strStarts lowerName "serviceaccount" then "Service account credentials"
  else "Potentially sensitive file"

/-! ### Mount-plan compiler (`src/docker-generator.ts`) -/

/-- Embedding of `isIgnored(path, ignoredPaths)` from `docker-generator.ts`: a path is
ignored if it equals an ignored path or lies under one. -/
def isIgnored (path : String) (ignoredPaths : List String) : Bool :=
  ignoredPaths.any (fun ignored =>
    path == ignored || strStarts path (ignored ++ "/"))

/-- The `pathsToMount` computation inside `generateDockerCompose`:
`allPaths.filter(p => !isIgnored(p, ignoredPaths))`. -/
def pathsToMount (allPaths ignoredPaths : List String) : List String :=
  allPaths.filter (fun p => !(isIgnored p ignoredPaths))

/-- One `host:container[:ro]` volume-mount entry, split into components. -/
structure VolumeMount where
  source : String
  container : String
  readOnly : Bool
deriving DecidableEq

/-- The `runtimeDirs` list from `generateVolumeMounts`. -/
def runtimeDirs : List String :=
  ["memory", "logs", "canvas", "media", "cron", "agents", "subagents",
   "telegram", "delivery-queue", "devices", "identity"]

/-- Embedding of `generateVolumeMounts(openclawRoot, pathsToMount)` from
`docker-generator.ts`.  `home` stands for `homedir()` and `statIsDir` for the
`stat` call: `none` models a failed `stat` (path skipped), `some b` models a
successful `stat` with `b = stats.isDirectory()`.  Mount strings are kept as
`(source, container, readOnly)` components. -/
def generateVolumeMounts (home : String) (statIsDir : String → Option Bool)
    (paths : List String) : List VolumeMount :=
  let base :=
    [VolumeMount.mk (home ++ "/.openclaw/openclaw.docker.json")
       "/home/node/.openclaw/openclaw.json" true,
     VolumeMount.mk (home ++ "/.openclaw/credentials")
       "/home/node/.openclaw/credentials" true]
    ++ runtimeDirs.map (fun d =>
         VolumeMount.mk (home ++ "/.openclaw/" ++ d)
           ("/home/node/.openclaw/" ++ d) false)
    ++ [VolumeMount.mk (home ++ "/.openclaw/.clawignore")
          "/home/node/.openclaw/.clawignore" true,
        VolumeMount.mk (home ++ "/.openclaw/workspace")
          "/home/node/.openclaw/workspace" false]
  base ++ paths.filterMap (fun sourcePath =>
    let mountName := basename sourcePath
    if mountName == ".openclaw" || strEnds sourcePath "/.openclaw" then none
    else
      match statIsDir sourcePath with
      | none => none
      | some false => none
      | some true =>
          some (VolumeMount.mk sourcePath
            ("/home/node/.openclaw/workspace/" ++ mountName) false))

/-- The fixed comment header emitted by `generateClawignore`. -/
def clawignoreHeader : List String :=
  ["# Clawignore - Files hidden from OpenClaw",
   "# Generated by clawignore",
   "# These paths are NOT mounted into the Docker container",
   ""]

/-- Embedding of `generateClawignore(ignoredPaths)` from `docker-generator.ts`:
header lines, then one path per line, joined with newlines plus a trailing
newline. -/
def generateClawignore (ignoredPaths : List String) : String :=
  joinWith "\n" (clawignoreHeader ++ ignoredPaths) ++ "\n"

/-- The `.clawignore` reading rule inside `regenerateDockerCompose`:
split into lines, trim each, drop blank lines and `#`-prefixed lines. -/
def parseClawignore (content : String) : List String :=
  ((strSplit content '\n').map strTrim).filter
    (fun line => !(line == "") && !(strStarts line "#"))

/-! ### Selection browser (`src/browser.ts`) -/

/-- One entry of the browser's flattened list: the two fields of `FileNode`
that the space-toggle handler reads (`path` and `isDirectory`). -/
structure FlatNode where
  path : String
  isDirectory : Bool
deriving DecidableEq

/-- The lexical-descendant test used by the space-toggle handler:
`child.path.startsWith(node.path + '/')`. -/
def descendantOf (nodePath childPath : String) : Bool :=
  strStarts childPath (nodePath ++ "/")

/-- The `space` branch of `handleKeypress` in `runIgnoreBrowser`
(`browser.ts`): toggle the node under the cursor.  If its path is selected,
remove it and (for directories) remove every entry of the current flattened
list whose path starts with `node.path + "/"`; otherwise add it and (for
directories) add those entries.  The `SelectionState` (a JS `Set`) is
modelled as a `Finset String`. -/
def toggleSelection (flatList : List FlatNode) (node : FlatNode)
    (selected : Finset String) : Finset String :=
  if node.path ∈ selected then
    let base := selected.erase node.path
    if node.isDirectory then
      flatList.foldl (fun acc child =>
        if descendantOf node.path child.path then acc.erase child.path
        else acc) base
    else base
  else
    let base := insert node.path selected
    if node.isDirectory then
      flatList.foldl (fun acc child =>
        if descendantOf node.path child.path then insert child.path acc
        else acc) base
    else base

/-- The proper-ancestor paths checked by the `return` (confirm) branch of
`handleKeypress`: for `parts = p.split('/')`, the joins
`parts.slice(0, i).join('/')` for `1 ≤ i < parts.length`. -/
def pathAncestors (p : String) : List String :=
  let parts := strSplit p '/'
  ((List.range parts.length).drop 1).map (fun i => joinWith "/" (parts.take i))

/-- The reduction applied by the `return` (confirm) branch of
`handleKeypress`: keep a selected path only if none of its proper ancestor
paths is also selected (the source filters the array `[...selected]`; the
result is modelled as the corresponding set). -/
def reduceSelected (selected : Finset String) : Finset String :=
  selected.filter (fun p => ∀ a ∈ pathAncestors p, a ∉ selected)

/-- A tree node as seen by the browser UI: `path`, `isDirectory`, the
mutable `expanded` flag, and the children list. -/
inductive UINode where
  | mk (path : String) (isDirectory expanded : Bool) (children : List UINode)

/-- Path of a `UINode`. -/
def UINode.path : UINode → String
  | .mk p _ _ _ => p

/-- Whether a `UINode` is a directory. -/
def UINode.isDirectory : UINode → Bool
  | .mk _ d _ _ => d

/-- Embedding of `flattenTree(tree)` from `browser.ts`: pre-order traversal descending
only into nodes that are directories and expanded. -/
def flattenTree : List UINode → List FlatNode
  | [] => []
  | UINode.mk p d e cs :: rest =>
      FlatNode.mk p d ::
        ((if d && e then flattenTree cs else []) ++ flattenTree rest)

/-! ### Filesystem tree builder (`src/browser.ts`) -/

/-- An abstract filesystem entry, standing in for the result of `readdir`
with `withFileTypes`. -/
inductive FSEntry where
  | file (name : String)
  | dir (name : String) (children : List FSEntry)

/-- Name of an `FSEntry`. -/
def FSEntry.name : FSEntry → String
  | .file n => n
  | .dir n _ => n

/-- Whether an `FSEntry` is a directory. -/
def FSEntry.isDir : FSEntry → Bool
  | .file _ => false
  | .dir _ _ => true

/-- The comparator used by `buildFileTree`'s sort, as a relation
("`a` sorts no later than `b`"): directories before files, and equal kinds
ordered by name (`localeCompare` modelled as lexicographic order). -/
def entryBefore (a b : FSEntry) : Prop :=
  if a.isDir = b.isDir then a.name ≤ b.name else a.isDir = true

instance : DecidableRel entryBefore := fun a b => by
  unfold entryBefore; infer_instance

instance : IsTotal FSEntry entryBefore := ⟨by
  intro a b
  unfold entryBefore
  by_cases h : a.isDir = b.isDir
  · rw [if_pos h, if_pos h.symm]
    exact le_total a.name b.name
  · rw [if_neg h, if_neg (fun hh => h hh.symm)]
    cases ha : a.isDir with
    | true => exact Or.inl rfl
    | false =>
      cases hb : b.isDir with
      | true => exact Or.inr rfl
      | false => exact absurd (ha.trans hb.symm) h⟩

instance : IsTrans FSEntry entryBefore := ⟨by
  intro a b c hab hbc
  unfold entryBefore at *
  by_cases hac : a.isDir = c.isDir
  · rw [if_pos hac]
    by_cases hab' : a.isDir = b.isDir
    · rw [if_pos hab'] at hab
      rw [if_pos (hab'.symm.trans hac)] at hbc
      exact le_trans hab hbc
    · rw [if_neg hab'] at hab
      have hbc' : b.isDir ≠ c.isDir := fun h => hab' (hac.trans h.symm)
      rw [if_neg hbc'] at hbc
      exact absurd (hab.trans hbc.symm) hab'
  · rw [if_neg hac]
    by_cases hab' : a.isDir = b.isDir
    · have hbc' : b.isDir ≠ c.isDir := fun h => hac (hab'.trans h)
      rw [if_neg hbc'] at hbc
      exact hab'.trans hbc
    · rw [if_neg hab'] at hab
      exact hab⟩

/-- The sort performed on `readdir` entries in `buildFileTree`. -/
def sortEntries (l : List FSEntry) : List FSEntry :=
  List.insertionSort entryBefore l

/-- Embedding of the `SYSTEM_HIDDEN` list from `browser.ts`. -/
def SYSTEM_HIDDEN : List String :=
  ["Library", "Applications", "System", "Volumes", "private", "usr", "bin",
   "sbin", "etc", "var", "tmp", "cores", "opt", "node_modules", ".git",
   ".Trash", ".cache", ".npm", ".nvm"]

/-- The skip rules applied to each sorted entry in `buildFileTree`:
system names are skipped at depth 0; hidden names (leading `.`) are skipped
unless they start with `.env` or `.openclaw` or contain one of
`ssh`/`aws`/`config`/`kube`. -/
def keepEntry (depth : Nat) (name : String) : Bool :=
  !(depth == 0 && SYSTEM_HIDDEN.contains name) &&
  !(strStarts name "." && !(strStarts name ".env") &&
    !(strStarts name ".openclaw") &&
    !(["ssh", "aws", "config", "kube"].any (fun s => strHas name s)))

/-- Node `path.relative(root, full)` restricted to the shape that occurs in
the walk (`full` strictly under `root`): strip the `root ++ "/"` prefix. -/
def relPath (root full : String) : String :=
  if strStarts full (root ++ "/") then
    String.mk (full.data.drop (root.data.length + 1))
  else full

/-- The `FileNode` record built by `buildFileTree`. -/
inductive FileNode where
  | mk (name path relativePath : String) (isDirectory : Bool) (depth : Nat)
       (isSensitive : Bool) (children : List FileNode)

/-- Name of a `FileNode`. -/
def FileNode.name : FileNode → String
  | .mk n _ _ _ _ _ _ => n

/-- Whether a `FileNode` is a directory. -/
def FileNode.isDirectory : FileNode → Bool
  | .mk _ _ _ d _ _ _ => d

/-- Embedding of `buildFileTree(dir, rootPath, depth, maxDepth)` from `browser.ts` over
the abstract filesystem.  `fuel` is `maxDepth - depth`; the source's
`depth >= maxDepth` early return is the `fuel = 0` case.  Entries are
sorted (directories first, then by name), the skip rules are applied, and
each kept entry becomes a `FileNode` classified once at creation, with
children built recursively one level deeper. -/
def buildFileTree (fuel : Nat) (dirPath rootPath : String) (depth : Nat)
    (entries : List FSEntry) : List FileNode :=
  match fuel with
  | 0 => []
  | fuel + 1 =>
    ((sortEntries entries).filter (fun e => keepEntry depth e.name)).map
      (fun e =>
        let fullPath := dirPath ++ "/" ++ e.name
        FileNode.mk e.name fullPath (relPath rootPath fullPath) e.isDir depth
          (isSensitivePath e.name fullPath)
          (match e with
           | .file _ => []
           | .dir _ cs => buildFileTree fuel fullPath rootPath (depth + 1) cs))

/-- The ordering claimed for sibling `FileNode` sequences: directories
before files, and within equal kinds lexicographic by name. -/
def nodeLE (a b : FileNode) : Prop :=
  if a.isDirectory = b.isDirectory then a.name ≤ b.name
  else a.isDirectory = true

end Clawignore


/-! ## Theorems -/

namespace Clawignore

/-- Helper: `isIgnored` is monotone in the ignored-path list. -/
theorem isIgnored_mono (p : String) (A B : List String)
    (hAB : ∀ a ∈ A, a ∈ B) (h : isIgnored p A = true) :
    isIgnored p B = true := by
  rcases List.any_eq_true.mp h with ⟨a, ha, hpred⟩
  exact List.any_eq_true.mpr ⟨a, hAB a ha, hpred⟩

/-- C9: denial is monotone — enlarging the ignored-path list preserves
`isIgnored`, and consequently the compiler's `pathsToMount` for the larger
denied list is a subset of the one for the smaller list. -/
theorem isIgnored_monotone_pathsToMount_antitone (p : String)
    (allPaths A B : List String) (hAB : ∀ a ∈ A, a ∈ B) :
    (isIgnored p A = true → isIgnored p B = true) ∧
    (∀ q ∈ pathsToMount allPaths B, q ∈ pathsToMount allPaths A) := by
  refine ⟨isIgnored_mono p A B hAB, ?_⟩
  intro q hq
  rw [pathsToMount, List.mem_filter] at hq ⊢
  refine ⟨hq.1, ?_⟩
  have h2 := hq.2
  simp only [Bool.not_eq_true'] at h2 ⊢
  cases hA : isIgnored q A with
  | false => rfl
  | true => exact absurd (isIgnored_mono q A B hAB hA) (by simp [h2])

/-- C9 witness: a concrete instantiation with `A = ["/a"] ⊆ B = ["/a","/b"]`
and `p = "/a/x"`. -/
theorem isIgnored_monotone_witness :
    (isIgnored "/a/x" ["/a"] = true → isIgnored "/a/x" ["/a", "/b"] = true) ∧
    (∀ q ∈ pathsToMount ["/a/x", "/c"] ["/a", "/b"],
      q ∈ pathsToMount ["/a/x", "/c"] ["/a"]) :=
  isIgnored_monotone_pathsToMount_antitone "/a/x" ["/a/x", "/c"]
    ["/a"] ["/a", "/b"] (by decide)

/-- C6: the confirm-time reduction is a minimal covering set — a path kept
by the reduction has no proper ancestor in the selected set, hence no member
of the reduced set is a descendant of another member. -/
theorem reduceSelected_minimal_covering (S : Finset String) (p q : String)
    (hp : p ∈ reduceSelected S) (hq : q ∈ pathAncestors p) :
    q ∉ S ∧ q ∉ reduceSelected S := by
  have h := Finset.mem_filter.mp hp
  exact ⟨h.2 q hq, fun hc => h.2 q hq (Finset.filter_subset _ _ hc)⟩

/-- C6 witness: in `S = {"/a", "/a/b"}` the path `"/a"` survives the
reduction, `""` is one of its ancestor strings, and `""` is in neither set. -/
theorem reduceSelected_minimal_covering_witness :
    "/a" ∈ reduceSelected {"/a", "/a/b"} ∧ "" ∈ pathAncestors "/a" ∧
    ("" ∉ ({"/a", "/a/b"} : Finset String) ∧
     "" ∉ reduceSelected {"/a", "/a/b"}) :=
  ⟨by decide, by decide,
   reduceSelected_minimal_covering {"/a", "/a/b"} "/a" "" (by decide)
     (by decide)⟩

/-- C7: the classifier is a pure function (trivially equal on repeated
calls); `".env"` classifies sensitive with the environment-variable reason;
`"id_rsa.pub"` is not sensitive (public-key exclusion); and
`"notes-on-password-policy.md"` is sensitive via the `"password"` keyword
substring — all for every path argument. -/
theorem classifier_pure_and_examples (n p : String) :
    isSensitivePath n p = isSensitivePath n p ∧
    isSensitivePath ".env" p = true ∧
    getSensitiveReason ".env" = "Environment variables may contain secrets" ∧
    strHas (getSensitiveReason ".env") "Environment variables" = true ∧
    isSensitivePath "id_rsa.pub" p = false ∧
    isSensitivePath "notes-on-password-policy.md" p = true :=
  ⟨rfl, rfl, rfl, by decide, rfl, rfl⟩

/-- C1 (bug evaluation): with both `/a/data` and `/b/data` as directories to
mount, `generateVolumeMounts` emits BOTH `workspace/data` mounts — two
entries with the same container-side path and different sources — so the
generated `volumeMounts` list violates the no-collision invariant. -/
theorem volumeMounts_emit_container_collision :
    ((generateVolumeMounts "/Users/u" (fun _ => some true)
        (pathsToMount ["/a/data", "/b/data"] [])).filter
      (fun m => m.container == "/home/node/.openclaw/workspace/data")).map
        VolumeMount.source = ["/a/data", "/b/data"] ∧
    ¬ ((generateVolumeMounts "/Users/u" (fun _ => some true)
        (pathsToMount ["/a/data", "/b/data"] [])).map
          VolumeMount.container).Nodup := by
  constructor
  · decide
  · decide

/-- C2 (bug evaluation): select directory `/r/d` (which selects its three
children), then deselect child `/r/d/a`, then confirm.  The reduced denied
set is `{/r/d}`: it still contains the directory, contains none of the
other children explicitly, and the deselected child is still denied by the
prefix rule — contrary to the specified behaviour. -/
theorem deselected_child_remains_denied :
    (let fl : List FlatNode :=
      [FlatNode.mk "/r/d" true, FlatNode.mk "/r/d/a" false,
       FlatNode.mk "/r/d/b" false, FlatNode.mk "/r/d/c" false];
     let S1 := toggleSelection fl (FlatNode.mk "/r/d" true) ∅;
     let S2 := toggleSelection fl (FlatNode.mk "/r/d/a" false) S1;
     reduceSelected S2 = {"/r/d"} ∧
     "/r/d/b" ∉ reduceSelected S2 ∧ "/r/d" ∈ reduceSelected S2 ∧
     isIgnored "/r/d/a" ["/r/d"] = true) := by
  decide

/-- C5 counterexample: the ignore-list text rendered by
`generateClawignore ["/home/u/.ssh"]` has no line containing `"keys"` at
all; in particular there is no `keys` category header under which the entry
could be placed. -/
theorem clawignore_has_no_keys_header :
    (strSplit (generateClawignore ["/home/u/.ssh"]) '\n').all
      (fun l => !(strHas l "keys")) = true := by decide

/-- C5 (amended): for the end-to-end scenario, `pathsToMount` is exactly
`["/home/u/Documents", "/home/u/project"]`, and the rendered ignore-list
consists of the fixed three-line comment header, a blank line, the single
entry `/home/u/.ssh`, and the trailing newline — so exactly one non-blank
non-comment line, with no category headers. -/
theorem endToEnd_pathsToMount_and_clawignore :
    pathsToMount ["/home/u/Documents", "/home/u/.ssh", "/home/u/project"]
      ["/home/u/.ssh"] = ["/home/u/Documents", "/home/u/project"] ∧
    parseClawignore (generateClawignore ["/home/u/.ssh"]) =
      ["/home/u/.ssh"] ∧
    strSplit (generateClawignore ["/home/u/.ssh"]) '\n' =
      clawignoreHeader ++ ["/home/u/.ssh", ""] := by
  refine ⟨by decide, by decide, by decide⟩

/-- C10 counterexample: the entry `" /a"` is non-empty after trimming and
does not start with `#`, yet writing it with `generateClawignore` and
reading back with the regeneration rule yields `["/a"]`, not `[" /a"]`. -/
theorem clawignore_roundtrip_fails_on_padded_entry :
    strTrim " /a" ≠ "" ∧ strStarts " /a" "#" = false ∧
    parseClawignore (generateClawignore [" /a"]) ≠ [" /a"] := by decide

/-- C3 counterexample: with visible list `[/r/d, /r/d/a]` and prior
selection `{"/r/d/a"}`, toggling the directory `/r/d` twice yields `∅`, not
the prior state — deselection removed the independently selected child. -/
theorem toggle_not_involutive_on_preselected_child :
    toggleSelection [FlatNode.mk "/r/d" true, FlatNode.mk "/r/d/a" false]
      (FlatNode.mk "/r/d" true)
      (toggleSelection [FlatNode.mk "/r/d" true, FlatNode.mk "/r/d/a" false]
        (FlatNode.mk "/r/d" true) {"/r/d/a"}) ≠
      ({"/r/d/a"} : Finset String) := by decide

end Clawignore

namespace Clawignore

/-- Helper: membership after the erase loop of the space-toggle handler. -/
theorem mem_foldl_erase (P : FlatNode → Bool) (l : List FlatNode)
    (s : Finset String) (x : String) :
    (x ∈ l.foldl (fun acc c => if P c then acc.erase c.path else acc) s) ↔
      x ∈ s ∧ ∀ c ∈ l, P c = true → x ≠ c.path := by
  induction l generalizing s with
  | nil => simp
  | cons c l ih =>
    simp only [List.foldl_cons, List.forall_mem_cons]
    by_cases h : P c = true
    · simp only [h, if_true, ih, Finset.mem_erase]
      tauto
    · simp only [h, if_false, ih]
      tauto

/-- Helper: membership after the insert loop of the space-toggle handler. -/
theorem mem_foldl_insert (P : FlatNode → Bool) (l : List FlatNode)
    (s : Finset String) (x : String) :
    (x ∈ l.foldl (fun acc c => if P c then insert c.path acc else acc) s) ↔
      x ∈ s ∨ ∃ c ∈ l, P c = true ∧ x = c.path := by
  induction l generalizing s with
  | nil => simp
  | cons c l ih =>
    simp only [List.foldl_cons]
    by_cases h : P c = true
    · simp only [h, if_true, ih, Finset.mem_insert]
      constructor
      · rintro ((rfl | hs) | ⟨d, hd, hPd, rfl⟩)
        · exact Or.inr ⟨c, List.mem_cons_self c l, h, rfl⟩
        · exact Or.inl hs
        · exact Or.inr ⟨d, List.mem_cons_of_mem c hd, hPd, rfl⟩
      · rintro (hs | ⟨d, hd, hPd, rfl⟩)
        · exact Or.inl (Or.inr hs)
        · rcases List.mem_cons.mp hd with rfl | hd
          · exact Or.inl (Or.inl rfl)
          · exact Or.inr ⟨d, hd, hPd, rfl⟩
    · simp only [h, if_false, ih]
      constructor
      · rintro (hs | ⟨d, hd, hPd, rfl⟩)
        · exact Or.inl hs
        · exact Or.inr ⟨d, List.mem_cons_of_mem c hd, hPd, rfl⟩
      · rintro (hs | ⟨d, hd, hPd, rfl⟩)
        · exact Or.inl hs
        · rcases List.mem_cons.mp hd with rfl | hd
          · exact absurd hPd h
          · exact Or.inr ⟨d, hd, hPd, rfl⟩

/-- Helper: full membership characterisation of the space-toggle handler.
Toggling removes (resp. adds) exactly the node's own path and, for
directories, the paths of the entries of the current flattened list that
are lexical descendants of the node. -/
theorem mem_toggleSelection (fl : List FlatNode) (nd : FlatNode)
    (S : Finset String) (x : String) :
    x ∈ toggleSelection fl nd S ↔
      (if nd.path ∈ S then
        x ∈ S ∧ x ≠ nd.path ∧
          ¬(nd.isDirectory = true ∧
            ∃ c ∈ fl, descendantOf nd.path c.path = true ∧ x = c.path)
      else
        x ∈ S ∨ x = nd.path ∨
          (nd.isDirectory = true ∧
            ∃ c ∈ fl, descendantOf nd.path c.path = true ∧ x = c.path)) := by
  unfold toggleSelection
  by_cases hmem : nd.path ∈ S
  · rw [if_pos hmem, if_pos hmem]
    by_cases hdir : nd.isDirectory = true
    · rw [if_pos hdir, mem_foldl_erase, Finset.mem_erase]
      simp only [hdir, true_and]
      push_neg
      tauto
    · rw [if_neg hdir, Finset.mem_erase]
      simp only [hdir, false_and, not_false_iff, and_true]
      tauto
  · rw [if_neg hmem, if_neg hmem]
    by_cases hdir : nd.isDirectory = true
    · rw [if_pos hdir, mem_foldl_insert, Finset.mem_insert]
      simp only [hdir, true_and]
      tauto
    · rw [if_neg hdir, Finset.mem_insert]
      simp only [hdir, false_and, or_false]
      tauto

/-- C3 (amended): the space toggle is an involution whenever the prior
`SelectionState` is consistent on the node's visible subtree — if the node
is selected, all its visible descendants are too; if it is not selected,
none of them are.  (In general it is not an involution: deselecting a
directory removes all visible descendant paths, including independently
selected ones — see the counterexample.) -/
theorem toggle_involution_on_consistent_state (fl : List FlatNode)
    (nd : FlatNode) (S : Finset String)
    (h1 : nd.path ∈ S →
      ∀ c ∈ fl, descendantOf nd.path c.path = true → c.path ∈ S)
    (h2 : nd.path ∉ S →
      ∀ c ∈ fl, descendantOf nd.path c.path = true → c.path ∉ S) :
    toggleSelection fl nd (toggleSelection fl nd S) = S := by
  ext x
  rw [mem_toggleSelection]
  by_cases hmem : nd.path ∈ S
  · have hnd : nd.path ∉ toggleSelection fl nd S := by
      rw [mem_toggleSelection, if_pos hmem]
      simp
    rw [if_neg hnd, mem_toggleSelection, if_pos hmem]
    constructor
    · rintro (⟨hS, _, _⟩ | rfl | ⟨hdir, c, hc, hdesc, rfl⟩)
      · exact hS
      · exact hmem
      · exact h1 hmem c hc hdesc
    · intro hS
      by_cases hx : x = nd.path
      · exact Or.inr (Or.inl hx)
      by_cases hD : nd.isDirectory = true ∧
          ∃ c ∈ fl, descendantOf nd.path c.path = true ∧ x = c.path
      · exact Or.inr (Or.inr hD)
      · exact Or.inl ⟨hS, hx, hD⟩
  · have hnd : nd.path ∈ toggleSelection fl nd S := by
      rw [mem_toggleSelection, if_neg hmem]
      simp
    rw [if_pos hnd, mem_toggleSelection, if_neg hmem]
    constructor
    · rintro ⟨hS | rfl | hD, hne, hnD⟩
      · exact hS
      · exact absurd rfl hne
      · exact absurd hD hnD
    · intro hS
      refine ⟨Or.inl hS, ?_, ?_⟩
      · rintro rfl
        exact hmem hS
      · rintro ⟨hdir, c, hc, hdesc, rfl⟩
        exact h2 hmem c hc hdesc hS

/-- C3 witness: toggling the directory `/r/d` twice from the empty
selection (trivially consistent on the subtree) restores the empty
selection. -/
theorem toggle_involution_witness :
    toggleSelection [FlatNode.mk "/r/d" true, FlatNode.mk "/r/d/a" false]
      (FlatNode.mk "/r/d" true)
      (toggleSelection [FlatNode.mk "/r/d" true, FlatNode.mk "/r/d/a" false]
        (FlatNode.mk "/r/d" true) ∅) = ∅ :=
  toggle_involution_on_consistent_state
    [FlatNode.mk "/r/d" true, FlatNode.mk "/r/d/a" false]
    (FlatNode.mk "/r/d" true) ∅ (by decide) (by decide)

/-- C4 counterexample: toggling a collapsed directory does not add its
known (discovered) descendant: the child is absent from the flattened list,
so its path is not added to the selection. -/
theorem toggling_collapsed_dir_misses_descendant :
    flattenTree
      [UINode.mk "/r/d" true false [UINode.mk "/r/d/a" false false []]]
      = [FlatNode.mk "/r/d" true] ∧
    "/r/d/a" ∉ toggleSelection
      (flattenTree
        [UINode.mk "/r/d" true false [UINode.mk "/r/d/a" false false []]])
      (FlatNode.mk "/r/d" true) (∅ : Finset String) := by
  have h : flattenTree
      [UINode.mk "/r/d" true false [UINode.mk "/r/d/a" false false []]]
      = [FlatNode.mk "/r/d" true] := by
    simp [flattenTree]
  refine ⟨h, ?_⟩
  rw [h]
  decide

/-- C4 (amended): toggling a node affects exactly the node's own path plus
the lexical descendants present in the current expansion-aware flattened
list; paths inside collapsed (unexpanded) subtrees are not in that list and
are neither added nor removed. -/
theorem toggle_affects_exactly_visible_descendants (tree : List UINode)
    (nd : FlatNode) (S : Finset String) (x : String) :
    x ∈ toggleSelection (flattenTree tree) nd S ↔
      (if nd.path ∈ S then
        x ∈ S ∧ x ≠ nd.path ∧
          ¬(nd.isDirectory = true ∧ ∃ c ∈ flattenTree tree,
              descendantOf nd.path c.path = true ∧ x = c.path)
      else
        x ∈ S ∨ x = nd.path ∨
          (nd.isDirectory = true ∧ ∃ c ∈ flattenTree tree,
              descendantOf nd.path c.path = true ∧ x = c.path)) :=
  mem_toggleSelection (flattenTree tree) nd S x

end Clawignore

namespace Clawignore

/-- C8: every sibling `FileNode` sequence produced by the tree builder is
ordered directories-before-files and, within each kind, lexicographically
by name (every recursive call producing a children list is an instance of
this statement). -/
theorem buildFileTree_siblings_ordered (fuel : Nat) (dirPath rootPath : String)
    (depth : Nat) (entries : List FSEntry) :
    List.Pairwise nodeLE (buildFileTree fuel dirPath rootPath depth entries) := by
  cases fuel with
  | zero => simp [buildFileTree]
  | succ n =>
    rw [buildFileTree]
    have hsorted : List.Pairwise entryBefore
        ((sortEntries entries).filter (fun e => keepEntry depth e.name)) :=
      List.Pairwise.sublist (List.filter_sublist _)
        (List.sorted_insertionSort entryBefore entries)
    exact List.Pairwise.map _ (fun a b hab => hab) hsorted

end Clawignore

namespace Clawignore

/-- Helper: rebuilding a string from its character list is the identity. -/
theorem strMk_data (s : String) : String.mk s.data = s := rfl

/-- Helper: `splitChar` never returns the empty list. -/
theorem splitChar_ne_nil (c : Char) (cs : List Char) : splitChar c cs ≠ [] := by
  induction cs with
  | nil => simp [splitChar]
  | cons x xs ih =>
    rw [splitChar]
    cases h : splitChar c xs with
    | nil => exact absurd h ih
    | cons y ys =>
      by_cases hx : x = c <;> simp [hx]

/-- Helper: splitting a separator-free list yields that list alone. -/
theorem splitChar_no_sep (c : Char) (cs : List Char) (h : c ∉ cs) :
    splitChar c cs = [cs] := by
  induction cs with
  | nil => rfl
  | cons x xs ih =>
    have hx : ¬(x = c) := by
      rintro rfl
      exact h (List.mem_cons_self x xs)
    have hxs : c ∉ xs := fun hc => h (List.mem_cons_of_mem x hc)
    rw [splitChar, ih hxs]
    simp [hx]

/-- Helper: splitting past the first separator peels off the first
(separator-free) segment. -/
theorem splitChar_append_cons (c : Char) (as bs : List Char) (h : c ∉ as) :
    splitChar c (as ++ c :: bs) = as :: splitChar c bs := by
  induction as with
  | nil =>
    simp only [List.nil_append]
    rw [splitChar]
    cases hsp : splitChar c bs with
    | nil => exact absurd hsp (splitChar_ne_nil c bs)
    | cons y ys => simp
  | cons a as ih =>
    have ha : ¬(a = c) := by
      rintro rfl
      exact h (List.mem_cons_self a as)
    have has : c ∉ as := fun hc => h (List.mem_cons_of_mem a hc)
    simp only [List.cons_append]
    rw [splitChar, ih has]
    simp [ha]

/-- Helper: `joinWith` acts as `charJoin` on the character lists. -/
theorem joinWith_data (sep : String) (xs : List String) :
    (joinWith sep xs).data = charJoin sep.data (xs.map String.data) := by
  induction xs with
  | nil => rfl
  | cons x xs ih =>
    cases xs with
    | nil => rfl
    | cons y ys =>
      simp only [joinWith, charJoin, List.map_cons, String.data_append]
      rw [← List.map_cons, ← ih]

/-- Helper: appending an empty final segment appends one separator. -/
theorem charJoin_append_empty (sep : List Char) (xs : List (List Char))
    (h : xs ≠ []) :
    charJoin sep (xs ++ [[]]) = charJoin sep xs ++ sep := by
  induction xs with
  | nil => exact absurd rfl h
  | cons x xs ih =>
    cases xs with
    | nil => simp [charJoin]
    | cons y ys =>
      have hih := ih (by simp)
      simp only [List.cons_append] at hih ⊢
      simp only [charJoin]
      rw [hih]
      simp [List.append_assoc]

/-- Helper: splitting a join of separator-free segments recovers the
segments. -/
theorem splitChar_charJoin (c : Char) (xs : List (List Char)) (hne : xs ≠ [])
    (h : ∀ x ∈ xs, c ∉ x) :
    splitChar c (charJoin [c] xs) = xs := by
  induction xs with
  | nil => exact absurd rfl hne
  | cons x xs ih =>
    cases xs with
    | nil => simpa [charJoin] using splitChar_no_sep c x (h x (by simp))
    | cons y ys =>
      have hx : c ∉ x := h x (by simp)
      have hstep : charJoin [c] (x :: y :: ys) = x ++ c :: charJoin [c] (y :: ys) := by
        simp [charJoin]
      rw [hstep, splitChar_append_cons c x _ hx,
        ih (by simp) (fun z hz => h z (List.mem_cons_of_mem x hz))]

/-- Helper: the line structure of a generated `.clawignore` file: the fixed
header lines, then the entries, then the empty segment from the trailing
newline — provided no entry contains a newline character. -/
theorem generateClawignore_lines (l : List String)
    (h : ∀ e ∈ l, '\n' ∉ e.data) :
    strSplit (generateClawignore l) '\n' = clawignoreHeader ++ l ++ [""] := by
  unfold strSplit generateClawignore
  rw [String.data_append, joinWith_data]
  have hnl : ("\n" : String).data = ['\n'] := rfl
  rw [hnl, ← charJoin_append_empty ['\n']
    ((clawignoreHeader ++ l).map String.data) (by simp [clawignoreHeader])]
  rw [splitChar_charJoin '\n' _ (by simp)]
  · simp only [List.map_append, List.map_map, Function.comp_def, strMk_data,
      List.map_id', List.append_assoc]
    rfl
  · intro x hx
    rcases List.mem_append.mp hx with hx' | hx'
    · rcases List.mem_map.mp hx' with ⟨e, he, rfl⟩
      rcases List.mem_append.mp he with he' | he'
      · revert he'
        have : ∀ e ∈ clawignoreHeader, '\n' ∉ e.data := by decide
        exact fun he' => this e he'
      · exact h e he'
    · simp only [List.mem_singleton] at hx'
      subst hx'
      simp

/-- C10 (amended): writing a list of ignored paths with the compiler's
writer and reading it back with the regeneration reader's rule is the
identity, provided each entry contains no newline, is unchanged by
trimming, is non-empty, and does not start with `#`. -/
theorem clawignore_write_read_roundtrip (l : List String)
    (h : ∀ e ∈ l, '\n' ∉ e.data ∧ strTrim e = e ∧ e ≠ "" ∧
      strStarts e "#" = false) :
    parseClawignore (generateClawignore l) = l := by
  unfold parseClawignore
  rw [generateClawignore_lines l (fun e he => (h e he).1)]
  rw [List.map_append, List.map_append, List.filter_append,
    List.filter_append]
  have h1 : (clawignoreHeader.map strTrim).filter
      (fun line => !(line == "") && !(strStarts line "#")) = [] := by decide
  have h3 : ((([""] : List String)).map strTrim).filter
      (fun line => !(line == "") && !(strStarts line "#")) = [] := by decide
  have h2m : l.map strTrim = l :=
    (List.map_congr_left (fun e he => (h e he).2.1)).trans (List.map_id' l)
  have h2f : l.filter (fun line => !(line == "") && !(strStarts line "#")) = l := by
    rw [List.filter_eq_self]
    intro e he
    have := h e he
    simp only [Bool.and_eq_true, Bool.not_eq_true']
    constructor
    · exact beq_eq_false_iff_ne.mpr this.2.2.1
    · exact this.2.2.2
  rw [h1, h2m, h2f, h3]
  simp

/-- C10 witness: the round-trip at the concrete entry `"/home/u/.ssh"`. -/
theorem clawignore_write_read_roundtrip_witness :
    parseClawignore (generateClawignore ["/home/u/.ssh"]) =
      ["/home/u/.ssh"] :=
  clawignore_write_read_roundtrip ["/home/u/.ssh"] (by decide)

end Clawignore
